import Mathlib

/-
Verification development for the jovo-framework CLI build hooks.

The embedding models the two platform build hooks
(`platforms/platform-alexa/src/cli/hooks/BuildHook.ts` and
`platforms/platform-googleassistantconv/src/cli/hooks/BuildHook.ts`)
and the user persistence layer (`framework/src/JovoUser.ts`).

JavaScript objects are embedded as the inductive type `JVal`
(association lists of string keys).  The lodash operations used by the
hooks (`_.merge`, `_.mergeWith`, `_.get`, `_.set`, `_.has`) are embedded
as recursive functions on `JVal`.  Because `JVal` nests lists inside the
inductive type, the recursive operations take an explicit fuel argument
bounding the recursion depth; every theorem below holds for every
sufficiently large fuel, and fuel never changes the shape of the result
on inputs whose depth it covers.

Code that lives outside the six source files (the `jovo-model-alexa`
converter package, `@jovotech/cli-core` helpers such as
`mergeArrayCustomizer` and `getResolvedLocales`, and the platform data
files `SupportedLocales.json` / `DefaultFiles.json`) is either taken as
a parameter of the embedded function or modelled from the spec; each
such definition carries a doc comment saying so.
-/

/-- Embedded JavaScript/JSON value: strings, numbers, booleans, null,
arrays and objects (objects as ordered association lists, mirroring JS
property order). -/
inductive JVal where
  | str : String → JVal
  | num : Int → JVal
  | bool : Bool → JVal
  | null : JVal
  | arr : List JVal → JVal
  | obj : List (String × JVal) → JVal
deriving Repr

/-- First binding of key `k` in an association list, i.e. JS property
access `o[k]`. -/
def lookupKey (k : String) : List (String × JVal) → Option JVal
  | [] => none
  | (k2, v) :: xs => if k2 = k then some v else lookupKey k xs

/-- Embeds lodash `_.get` for a path of string segments: descends
through nested objects, `none` when a segment is missing or a
non-object is entered before the path ends. -/
def jget : JVal → List String → Option JVal
  | v, [] => some v
  | JVal.obj xs, k :: rest =>
    match lookupKey k xs with
    | some v => jget v rest
    | none => none
  | _, _ :: _ => none

/-- Embeds lodash `_.has` for a path of string segments. -/
def jhas (t : JVal) (p : List String) : Bool :=
  (jget t p).isSome

/-- Replaces the first binding of `k` (keeping its position), or appends
a new binding, i.e. JS property assignment `o[k] = v`. -/
def setEntry : List (String × JVal) → String → JVal → List (String × JVal)
  | [], k, v => [(k, v)]
  | (k2, w) :: xs, k, v =>
    if k2 = k then (k2, v) :: xs else (k2, w) :: setEntry xs k v

/-- Embeds lodash `_.set` for a path of string segments: descends
through objects, creating missing intermediate objects and replacing
primitive intermediates by fresh objects (as lodash `baseSet` does);
setting a path on a non-object root leaves it unchanged. -/
def jset : JVal → List String → JVal → JVal
  | _, [], v => v
  | JVal.obj xs, k :: rest, v =>
    match lookupKey k xs with
    | some (JVal.obj ys) => JVal.obj (setEntry xs k (jset (JVal.obj ys) rest v))
    | some _ =>
      match rest with
      | [] => JVal.obj (setEntry xs k v)
      | _ :: _ => JVal.obj (setEntry xs k (jset (JVal.obj []) rest v))
    | none => JVal.obj (xs ++ [(k, jset (JVal.obj []) rest v)])
  | w, _ :: _, _ => w

/-- Guarded write used throughout both `createAlexaProjectFiles` and
`createGoogleProjectFiles`: the source guards every generated `_.set`
with `!_.has(projectFiles, path)`. -/
def guardedSet (t : JVal) (p : List String) (v : JVal) : JVal :=
  if jhas t p then t else jset t p v

/-- True for the non-container values (string, number, boolean, null). -/
def isScalar : JVal → Bool
  | JVal.obj _ => false
  | JVal.arr _ => false
  | _ => true

/-- Object part shared by both deep merges: entries of the target `xs`
keep their positions (merged recursively with the like-keyed source
entry when one exists), entries only in the source `ys` are appended in
source order — exactly how lodash `baseMerge` iterates source keys and
assigns into the target. -/
def mergeEntries (rec : JVal → JVal → JVal) (xs ys : List (String × JVal)) :
    List (String × JVal) :=
  xs.map (fun p =>
    match lookupKey p.fst ys with
    | some vb => (p.fst, rec p.snd vb)
    | none => p)
  ++ ys.filter (fun q => (lookupKey q.fst xs).isNone)

/-- Embeds lodash `_.merge` (ordinary deep merge, used by the hooks for
`_merge(DefaultFiles, files)`, the reverse-build model merge and the
actions registry): objects merge entrywise, arrays merge index-wise
(source element over target element, the longer array's tail kept), and
in every other combination the source value wins.  `fuel` bounds the
recursion depth. -/
def jmergeF : Nat → JVal → JVal → JVal
  | 0, _, b => b
  | Nat.succ f, a, b =>
    match a, b with
    | JVal.obj xs, JVal.obj ys => JVal.obj (mergeEntries (jmergeF f) xs ys)
    | JVal.arr xs, JVal.arr ys =>
      JVal.arr (List.zipWith (jmergeF f) xs ys ++
        List.drop ys.length xs ++ List.drop xs.length ys)
    | _, b2 => b2

/-- Fuelled boolean equality of embedded values (exact structural
equality, used to drop exact-duplicate array elements). -/
def jbeqF : Nat → JVal → JVal → Bool
  | 0, _, _ => false
  | Nat.succ f, a, b =>
    match a, b with
    | JVal.str x, JVal.str y => x = y
    | JVal.num x, JVal.num y => x = y
    | JVal.bool x, JVal.bool y => x = y
    | JVal.null, JVal.null => true
    | JVal.arr xs, JVal.arr ys =>
      xs.length = ys.length && (List.zip xs ys).all (fun p => jbeqF f p.fst p.snd)
    | JVal.obj xs, JVal.obj ys =>
      xs.length = ys.length &&
        (List.zip xs ys).all (fun p => p.fst.fst = p.snd.fst && jbeqF f p.fst.snd p.snd.snd)
    | _, _ => false

/-- Removes exact-duplicate elements, keeping first-seen order. -/
def dedupF (f : Nat) (xs : List JVal) : List JVal :=
  xs.foldl (fun acc x => if acc.any (fun y => jbeqF f y x) then acc else acc ++ [x]) []

/-- Modelled from the spec: `@jovotech/cli-core`'s `mergeArrayCustomizer`
(not under src/) combined with lodash `_.mergeWith` — a standard deep
merge, except that when both sides of a key are arrays the arrays are
concatenated and exact-duplicate elements removed, rather than one
replacing the other. -/
def jmergeWithF : Nat → JVal → JVal → JVal
  | 0, _, b => b
  | Nat.succ f, a, b =>
    match a, b with
    | JVal.obj xs, JVal.obj ys => JVal.obj (mergeEntries (jmergeWithF f) xs ys)
    | JVal.arr xs, JVal.arr ys => JVal.arr (dedupF f (xs ++ ys))
    | _, b2 => b2

/-- Embeds `JovoCliError` from `@jovotech/cli-core` as its three string
arguments (message, module, hint); the optional hint defaults to the
empty string, and `printHighlight` (pure terminal styling) is modelled
as the identity. -/
structure JovoCliError where
  message : String
  module : String
  hint : String
deriving Repr, DecidableEq

instance {e a : Type} [DecidableEq e] [DecidableEq a] : DecidableEq (Except e a) :=
  fun x y =>
    match x, y with
    | Except.ok x1, Except.ok y1 =>
      if h : x1 = y1 then isTrue (by rw [h]) else isFalse (fun hc => h (by injection hc))
    | Except.error x1, Except.error y1 =>
      if h : x1 = y1 then isTrue (by rw [h]) else isFalse (fun hc => h (by injection hc))
    | Except.ok _, Except.error _ => isFalse (fun hc => Except.noConfusion hc)
    | Except.error _, Except.ok _ => isFalse (fun hc => Except.noConfusion hc)

/-- Modelled from the spec: `getResolvedLocales` from `@jovotech/cli-core`
(not under src/) — a requested locale token resolves to the project
configuration's resolution-table entry when one exists, and to itself
otherwise. -/
def getResolvedLocales (table : String → Option (List String)) (t : String) : List String :=
  match table t with
  | some ls => ls
  | none => [t]

/-- Substring test on character lists (JS `String.prototype.includes`). -/
def isInfixChars (pat : List Char) : List Char → Bool
  | [] => List.isPrefixOf pat []
  | c :: cs => List.isPrefixOf pat (c :: cs) || isInfixChars pat cs

/-- Embeds `locale.includes('en')` from the Google hook's
`getDefaultLocale`. -/
def containsEn (l : String) : Bool :=
  isInfixChars ("en".toList) (l.toList)

/-- The documentation pointer in the Alexa unsupported-locale error. -/
def alexaDocHint : String :=
  "For more information on multiple language support: https://developer.amazon.com/en-US/docs/alexa/custom-skills/develop-skills-in-multiple-languages.html"

/-- The guidance hint the Alexa hook uses for 2-letter (generic) locales
instead of the documentation pointer. -/
def alexaGenericHint : String :=
  "Alexa does not support generic locales, please specify locales in your project configuration."

/-- The error thrown by the Alexa hook's `validateLocales` for an
unsupported resolved locale; `pluginId` stands for `this.$plugin.id`. -/
def alexaUnsupportedLocaleError (pluginId r : String) : JovoCliError :=
  { message := "Locale " ++ r ++ " is not supported by Amazon Alexa."
  , module := pluginId
  , hint := if r.length = 2 then alexaGenericHint else alexaDocHint }

/-- Inner loop of the Alexa `validateLocales`: walks the locales resolved
from one requested locale and throws on the first one missing from the
platform's supported-locale list. -/
def alexaValidateResolved (pluginId : String) (supported : List String) :
    List String → Except JovoCliError Unit
  | [] => Except.ok ()
  | r :: rs =>
    if supported.contains r then alexaValidateResolved pluginId supported rs
    else Except.error (alexaUnsupportedLocaleError pluginId r)

/-- Embeds the Alexa hook's `validateLocales`: for each requested locale,
resolves it and validates every resolved locale against the supported
list, failing on the first offender.  The supported-locale list
(`this.$plugin.supportedLocales`, a data file outside src/) is a
parameter. -/
def alexaValidateLocales (pluginId : String) (supported : List String)
    (table : String → Option (List String)) :
    List String → Except JovoCliError Unit
  | [] => Except.ok ()
  | l :: ls => do
    alexaValidateResolved pluginId supported (getResolvedLocales table l)
    alexaValidateLocales pluginId supported table ls

/-- JS `locale.substring(0, 2)` — the generic (2-letter) locale of a
locale code. -/
def genericOf (l : String) : String :=
  String.mk (l.toList.take 2)

/-- The generic-locale-required error of the Google hook's
`validateLocales` (constructed with no hint argument). -/
def googleGenericLocaleError (l g : String) : JovoCliError :=
  { message := "Locale " ++ l ++ " requires a generic locale " ++ g ++ "."
  , module := "BuildHook"
  , hint := "" }

/-- The unsupported-locale error of the Google hook's `validateLocales`. -/
def googleUnsupportedLocaleError (l : String) : JovoCliError :=
  { message := "Locale " ++ l ++ " is not supported by Google Conversational Actions."
  , module := "BuildHook"
  , hint := "For more information on multiple language support: https://developers.google.com/assistant/console/languages-locales" }

/-- Body of the Google `validateLocales` loop for one resolved locale
`l`: first the two-stage-hierarchy check (a supported 2-letter prefix
must itself be among the resolved locales `all`), then the
supported-list membership check.  `supported` stands for the platform's
`SupportedLocales.json` (a data file outside src/). -/
def googleCheckLocale (supported all : List String) (l : String) :
    Except JovoCliError Unit :=
  let genericLocale := genericOf l
  if supported.contains genericLocale && !(all.contains genericLocale) then
    Except.error (googleGenericLocaleError l genericLocale)
  else if !(supported.contains l) then
    Except.error (googleUnsupportedLocaleError l)
  else
    Except.ok ()

/-- The Google `validateLocales` loop over the flattened resolved
locales. -/
def googleValidateLocalesAux (supported all : List String) :
    List String → Except JovoCliError Unit
  | [] => Except.ok ()
  | l :: ls => do
    googleCheckLocale supported all l
    googleValidateLocalesAux supported all ls

/-- Embeds the Google hook's `validateLocales`: flattens the resolved
locales of all requested locales (the `reduce` at the top of the
function), then checks each one in order. -/
def googleValidateLocales (supported : List String)
    (table : String → Option (List String)) (locales : List String) :
    Except JovoCliError Unit :=
  let all := locales.flatMap (getResolvedLocales table)
  googleValidateLocalesAux supported all all

/-- Embeds the Google hook's `getDefaultLocale`.  `configured` stands for
the truthy configured value
`files.settings/["settings.yaml"].defaultLocale || defaultLocale` of the
plugin config (`none` when neither is set or the value is falsy);
`locales` is the optional array argument.  When nothing is configured
and locales are given, the first locale containing the substring "en"
wins, otherwise `locales[0]` (which is JS `undefined`, embedded as
`none`, for an empty array). -/
def getDefaultLocale (configured : Option String) (locales : Option (List String)) :
    Except JovoCliError (Option String) :=
  match configured with
  | some d => Except.ok (some d)
  | none =>
    match locales with
    | some ls =>
      match ls.find? containsEn with
      | some l => Except.ok (some l)
      | none => Except.ok ls.head?
    | none =>
      Except.error
        { message := "Could not find a default locale."
        , module := "BuildHook"
        , hint := "Try adding the property \"defaultLocale\" to your project.js." }

/-- Embeds `NativeFileInformation` from `jovo-model`: a relative path
(sequence of segments, the last one being the file name) plus the file's
structured content. -/
structure NativeFileInformation where
  path : List String
  content : JVal
deriving Repr

/-- The error the Alexa hook's `buildLanguageModel` throws when the
converter returned no files for a resolved locale. -/
def alexaNoFilesError (l : String) : JovoCliError :=
  { message := "Could not build Alexa files for locale \"" ++ l ++ "\"!"
  , module := "BuildHook"
  , hint := "" }

/-- Embeds the Alexa hook's `buildLanguageModel` loop over the resolved
locales: the converter (`new JovoModelAlexa(model, locale).exportNative()`,
package `jovo-model-alexa`, outside src/) is the parameter `conv`; for
each locale the hook fails when the converter produced no files and
otherwise writes the first file's content to `models/<locale>.json`.
Returns the list of written files (path, content). -/
def alexaBuildLanguageModel (conv : String → List NativeFileInformation) :
    List String → Except JovoCliError (List (List String × JVal))
  | [] => Except.ok []
  | l :: ls =>
    match conv l with
    | [] => Except.error (alexaNoFilesError l)
    | file :: _ => do
      let rest ← alexaBuildLanguageModel conv ls
      Except.ok ((["models", l ++ ".json"], file.content) :: rest)

/-- Removes the first occurrence of `pat` from a character list (JS
`String.prototype.replace` with a string pattern and empty replacement). -/
def removeFirstSub (pat : List Char) : List Char → List Char
  | [] => []
  | c :: cs =>
    if List.isPrefixOf pat (c :: cs) then List.drop (pat.length - 1) cs
    else c :: removeFirstSub pat cs

/-- Embeds `fileName.replace('.yaml', '')` in the Google hook's action
registration. -/
def removeYamlSuffix (s : String) : String :=
  String.mk (removeFirstSub (".yaml".toList) s.toList)

/-- The initial actions registry of the Google `buildLanguageModel`:
`{ custom: { 'actions.intent.MAIN': {} } }`. -/
def googleInitialActions : JVal :=
  JVal.obj [("custom", JVal.obj [("actions.intent.MAIN", JVal.obj [])])]

/-- Embeds the action-registration side effect of the Google
`buildLanguageModel` file loop: for every produced file whose directory
path (after `file.path.pop()` removed the file name) contains
`intents`, the file name without its `.yaml` suffix is registered under
`custom`. -/
def googleRegisterActions (files : List NativeFileInformation) (actions : JVal) : JVal :=
  files.foldl
    (fun acc file =>
      if (file.path.dropLast).contains "intents" then
        jset acc ["custom", removeYamlSuffix ((file.path.getLast?).getD "")] (JVal.obj [])
      else acc)
    actions

/-- Embeds one resolved-locale iteration of the Google hook's
`buildLanguageModel`: writes every converter file, registers actions,
merges the registry with the `options.actions/` project configuration
(`getProjectActions`, a parameter since it reads the plugin config) via
plain `_.merge`, and writes `actions/actions.yaml`.  No emptiness check
is performed on the converter output. -/
def googleBuildLocale (fuel : Nat) (conv : String → List NativeFileInformation)
    (projectActions : Option JVal) (l : String) : List (List String × JVal) :=
  let modelFiles := conv l
  let written := modelFiles.map (fun file => (file.path, file.content))
  let actions :=
    match projectActions with
    | some a => jmergeF fuel (googleRegisterActions modelFiles googleInitialActions) a
    | none => googleRegisterActions modelFiles googleInitialActions
  written ++ [(["actions", "actions.yaml"], actions)]

/-- Embeds the Google hook's `buildLanguageModel` over the resolved
locales; unlike the Alexa hook it can only succeed. -/
def googleBuildLanguageModel (fuel : Nat) (conv : String → List NativeFileInformation)
    (projectActions : Option JVal) :
    List String → Except JovoCliError (List (List String × JVal))
  | [] => Except.ok []
  | l :: ls => do
    let rest ← googleBuildLanguageModel fuel conv projectActions ls
    Except.ok (googleBuildLocale fuel conv projectActions l ++ rest)

/-- Canonical-model intent as far as the round-trip claim needs it: a
name and the sample phrases. -/
structure JovoIntent where
  name : String
  phrases : List String
deriving Repr

/-- Canonical model core: the invocation string and the intents. -/
structure JovoModelCore where
  invocation : String
  intents : List JovoIntent
deriving Repr

/-- Alexa native form of one intent (`name` / `samples`). -/
def alexaIntentToNative (i : JovoIntent) : JVal :=
  JVal.obj [("name", JVal.str i.name), ("samples", JVal.arr (i.phrases.map JVal.str))]

/-- Modelled from the spec: `exportNative` of `jovo-model-alexa` (outside
src/) — the forward converter produces one native file per call whose
content is the Alexa interaction model (invocation name and intents
with their sample phrases under
`interactionModel.languageModel`). -/
def alexaExportNative (m : JovoModelCore) (locale : String) : List NativeFileInformation :=
  [ { path := [locale ++ ".json"]
    , content := JVal.obj
        [ ("interactionModel", JVal.obj
            [ ("languageModel", JVal.obj
                [ ("invocationName", JVal.str m.invocation)
                , ("intents", JVal.arr (m.intents.map alexaIntentToNative)) ]) ]) ] } ]

/-- Option-valued traversal of a list (fails when any element fails). -/
def mapMaybe (g : JVal → Option JVal) : List JVal → Option (List JVal)
  | [] => some []
  | x :: xs =>
    match g x, mapMaybe g xs with
    | some y, some ys => some (y :: ys)
    | _, _ => none

/-- Canonical form of one parsed native intent (`name` / `phrases`). -/
def jovoIntentFromNative : JVal → Option JVal
  | JVal.obj fields =>
    match lookupKey "name" fields, lookupKey "samples" fields with
    | some (JVal.str n), some (JVal.arr ss) =>
      some (JVal.obj [("name", JVal.str n), ("phrases", JVal.arr ss)])
    | _, _ => none
  | _ => none

/-- Modelled from the spec: `importNative` followed by `exportJovoModel`
of `jovo-model-alexa` (outside src/) — parses the native interaction
model back into the canonical shape, returning `none` (JS `undefined`)
when the content holds no usable data. -/
def alexaImportToJovo (content : JVal) : Option JVal :=
  match jget content ["interactionModel", "languageModel"] with
  | some (JVal.obj lm) =>
    match lookupKey "invocationName" lm, lookupKey "intents" lm with
    | some (JVal.str inv), some (JVal.arr ints) =>
      match mapMaybe jovoIntentFromNative ints with
      | some jis => some (JVal.obj [("invocation", JVal.str inv), ("intents", JVal.arr jis)])
      | none => none
    | _, _ => none
  | _ => none

/-- The placeholder model the Alexa `buildReverse` starts from when no
canonical model exists for the locale: `{ invocation: '' }`. -/
def emptyJovoModel : JVal :=
  JVal.obj [("invocation", JVal.str "")]

/-- The error the Alexa `buildReverse` throws when `exportJovoModel`
yielded no data. -/
def alexaNoValidDataError : JovoCliError :=
  { message := "Alexa files did not contain any valid data."
  , module := "BuildHook"
  , hint := "" }

/-- Embeds the per-locale body of the Alexa hook's `buildReverse`:
`existing` is the current canonical model when `getModel` succeeded
(the placeholder `{ invocation: '' }` is used when it threw),
`nativeData` is the `exportJovoModel` result; on usable data the parsed
model is `_.merge`d into the target and saved. -/
def alexaBuildReverseLocale (fuel : Nat) (existing : Option JVal)
    (nativeData : Option JVal) : Except JovoCliError JVal :=
  let modelFile := existing.getD emptyJovoModel
  match nativeData with
  | none => Except.error alexaNoValidDataError
  | some d => Except.ok (jmergeF fuel modelFile d)

/-- Forward-then-reverse composition for one locale with no pre-existing
canonical model: `buildLanguageModel` writes the exported native file,
whose content is then parsed and merged by the `buildReverse` body.
(The JSON serialization between the two is modelled as the identity.) -/
def alexaRoundTrip (fuel : Nat) (m : JovoModelCore) (l : String) :
    Except JovoCliError JVal :=
  match alexaBuildLanguageModel (alexaExportNative m) [l] with
  | Except.error e => Except.error e
  | Except.ok written =>
    match written with
    | (_, content) :: _ => alexaBuildReverseLocale fuel none (alexaImportToJovo content)
    | [] => Except.error (alexaNoFilesError l)

/-- The intent names of a canonical model in `JVal` form. -/
def intentNamesOf (v : JVal) : List String :=
  match jget v ["intents"] with
  | some (JVal.arr is) =>
    is.filterMap (fun i =>
      match jget i ["name"] with
      | some (JVal.str n) => some n
      | _ => none)
  | _ => []

/-- The top-level keys of a `JVal` object. -/
def topKeys : JVal → List String
  | JVal.obj xs => xs.map Prod.fst
  | _ => []

/-- Embeds the Alexa hook's `getJovoModel` (and, identically structured,
the Google hook's `getModel`): the canonical model loaded for a locale
is merged, with `_.mergeWith(…, mergeArrayCustomizer)`, first with the
project-level `languageModel.<locale>` configuration and then with the
plugin-level language model.  The loaded model and the two override
fragments are parameters because they come from project IO and plugin
config. -/
def getJovoModel (fuel : Nat) (model projectLM pluginLM : JVal) : JVal :=
  jmergeWithF fuel (jmergeWithF fuel model projectLM) pluginLM

/-- Parameters of `createAlexaProjectFiles` that come from project IO,
plugin config and CLI context: whether the platform folder already
exists, the platform default file tree (`DefaultFiles.json`, outside
src/), the user's `files` overrides, the endpoint (empty string when
falsy), the configured `options.skillId` (`none` when unset/falsy), the
project name, the locale-resolution table and the requested locales. -/
structure AlexaProjectParams where
  hasPlatform : Bool
  defaultFiles : JVal
  files : JVal
  endpoint : String
  skillId : Option String
  skillName : String
  localeTable : String → Option (List String)
  contextLocales : List String

/-- Path of the generated endpoint:
`skill-package/["skill.json"].manifest.apis.custom.endpoint`. -/
def alexaEndpointPath : List String :=
  ["skill-package/", "skill.json", "manifest", "apis", "custom", "endpoint"]

/-- Path of the generated skill id:
`[".ask/"]["ask-states.json"].profiles.default.skillId`. -/
def alexaSkillIdPath : List String :=
  [".ask/", "ask-states.json", "profiles", "default", "skillId"]

/-- Per-locale path of the generated publishing information. -/
def alexaPublishingPath (l : String) : List String :=
  ["skill-package/", "skill.json", "manifest", "publishingInformation", "locales", l]

/-- Per-locale path of the generated privacy-and-compliance block. -/
def alexaPrivacyPath (l : String) : List String :=
  ["skill-package/", "skill.json", "manifest", "privacyAndCompliance", "locales", l]

/-- The generated endpoint value: a Wildcard SSL certificate unless the
endpoint is an ARN. -/
def alexaEndpointValue (endpoint : String) : JVal :=
  JVal.obj
    [ ("sslCertificateType",
        if String.startsWith endpoint ("arn") then JVal.null else JVal.str ("Wildcard"))
    , ("uri", JVal.str endpoint) ]

/-- The generated sample publishing information for one locale. -/
def alexaPublishingValue (skillName : String) : JVal :=
  JVal.obj
    [ ("summary", JVal.str "Sample Short Description")
    , ("examplePhrases", JVal.arr [JVal.str "Alexa open hello world"])
    , ("keywords", JVal.arr [JVal.str "hello", JVal.str "world"])
    , ("name", JVal.str skillName)
    , ("description", JVal.str "Sample Full Description")
    , ("smallIconUri", JVal.str "https://via.placeholder.com/108/09f/09f.png")
    , ("largeIconUri", JVal.str "https://via.placeholder.com/512/09f/09f.png") ]

/-- The generated privacy-and-compliance value for one locale. -/
def alexaPrivacyValue : JVal :=
  JVal.obj
    [ ("privacyPolicyUrl", JVal.str "http://example.com/policy")
    , ("termsOfUseUrl", JVal.str "") ]

/-- The two guarded per-locale writes of `createAlexaProjectFiles`. -/
def alexaLocaleWrites (skillName : String) (t : JVal) (l : String) : JVal :=
  guardedSet
    (guardedSet t (alexaPublishingPath l) (alexaPublishingValue skillName))
    (alexaPrivacyPath l) alexaPrivacyValue

/-- Embeds `createAlexaProjectFiles` up to the final
`FileBuilder.buildDirectory` write-out: the user file overrides are
merged over the platform defaults when the platform folder does not
exist yet, then the endpoint, skill id, and per-resolved-locale
publishing/privacy blocks are written, each write guarded by an
existence check on its full path.  (`FileBuilder.normalizeFileObject`,
outside src/, is modelled as the identity on the already-normalized
parameter tree.) -/
def createAlexaProjectFiles (fuel : Nat) (P : AlexaProjectParams) : JVal :=
  let projectFiles :=
    if P.hasPlatform then P.files else jmergeF fuel P.defaultFiles P.files
  let t1 :=
    if P.endpoint = "" then projectFiles
    else guardedSet projectFiles alexaEndpointPath (alexaEndpointValue P.endpoint)
  let t2 :=
    match P.skillId with
    | some sid => guardedSet t1 alexaSkillIdPath (JVal.str sid)
    | none => t1
  let resolved := P.contextLocales.flatMap (getResolvedLocales P.localeTable)
  resolved.foldl (alexaLocaleWrites P.skillName) t2

/-- All paths `createAlexaProjectFiles` may write to. -/
def alexaGeneratedPaths (P : AlexaProjectParams) : List (List String) :=
  alexaEndpointPath :: alexaSkillIdPath ::
    (P.contextLocales.flatMap (getResolvedLocales P.localeTable)).flatMap
      (fun l => [alexaPublishingPath l, alexaPrivacyPath l])

/-- Parameters of `createGoogleProjectFiles` coming from project IO,
plugin config and CLI context.  `invocationName` abstracts
`getInvocationName` (which reads the per-locale canonical model);
`defaultLocale` is the context value set by `build` before the project
files task runs, and `projectId` the value set by
`updatePluginContext`. -/
structure GoogleProjectParams where
  hasPlatform : Bool
  defaultFiles : JVal
  files : JVal
  endpoint : String
  projectId : String
  defaultLocale : String
  invocationName : String → String
  localeTable : String → Option (List String)
  contextLocales : List String

/-- Path of the generated webhook file:
`webhooks/["ActionsOnGoogleFulfillment.yaml"]`. -/
def googleWebhookPath : List String :=
  ["webhooks/", "ActionsOnGoogleFulfillment.yaml"]

/-- The generated default webhook handler. -/
def googleDefaultHandler (endpoint : String) : JVal :=
  JVal.obj
    [ ("handlers", JVal.arr [JVal.obj [("name", JVal.str "Jovo")]])
    , ("httpsEndpoint", JVal.obj [("baseUrl", JVal.str endpoint)]) ]

/-- The settings path for a resolved locale: the locale segment is
omitted for the default locale. -/
def googleSettingsPath (defaultLocale resolved : String) : List String :=
  if resolved ≠ defaultLocale then ["settings/", resolved ++ "/", "settings.yaml"]
  else ["settings/", "settings.yaml"]

/-- The guarded writes `createGoogleProjectFiles` performs for one
resolved locale of one requested locale: `defaultLocale` and
`projectId` only on the default locale's settings file, then the
localized `displayName` and `pronunciation`, both set to the invocation
name of the requested (model) locale. -/
def googleResolvedWrites (P : GoogleProjectParams) (modelLocale : String)
    (t : JVal) (resolved : String) : JVal :=
  let sp := googleSettingsPath P.defaultLocale resolved
  let t1 :=
    if resolved = P.defaultLocale then
      guardedSet
        (guardedSet t (sp ++ ["defaultLocale"]) (JVal.str P.defaultLocale))
        (sp ++ ["projectId"]) (JVal.str P.projectId)
    else t
  let inv := P.invocationName modelLocale
  guardedSet
    (guardedSet t1 (sp ++ ["localizedSettings", "displayName"]) (JVal.str inv))
    (sp ++ ["localizedSettings", "pronunciation"]) (JVal.str inv)

/-- Embeds `createGoogleProjectFiles` up to the final
`FileBuilder.buildDirectory` write-out, in the same style as
`createAlexaProjectFiles`: defaults merged under the user overrides when
the platform folder does not exist, then the guarded webhook write and
the guarded per-locale settings writes. -/
def createGoogleProjectFiles (fuel : Nat) (P : GoogleProjectParams) : JVal :=
  let projectFiles :=
    if P.hasPlatform then P.files else jmergeF fuel P.defaultFiles P.files
  let t1 :=
    if P.endpoint = "" then projectFiles
    else guardedSet projectFiles googleWebhookPath (googleDefaultHandler P.endpoint)
  P.contextLocales.foldl
    (fun t l =>
      (getResolvedLocales P.localeTable l).foldl (googleResolvedWrites P l) t)
    t1

/-- All paths `createGoogleProjectFiles` may write to (the
`defaultLocale`/`projectId` paths are included for every resolved
locale, a superset of the writes actually performed). -/
def googleGeneratedPaths (P : GoogleProjectParams) : List (List String) :=
  googleWebhookPath ::
    P.contextLocales.flatMap (fun l =>
      (getResolvedLocales P.localeTable l).flatMap (fun r =>
        let sp := googleSettingsPath P.defaultLocale r
        [ sp ++ ["defaultLocale"], sp ++ ["projectId"]
        , sp ++ ["localizedSettings", "displayName"]
        , sp ++ ["localizedSettings", "pronunciation"] ]))

/-- Embeds the ordering of the Alexa hook's `actionSet`: the
`before.build` handlers (here the locale validation) run before the
`build` handler, so a validation error surfaces before any platform
file is produced.  The files the build would write are represented by
the `buildFiles` computation. -/
def alexaBuildPipeline (pluginId : String) (supported : List String)
    (table : String → Option (List String)) (locales : List String)
    (buildFiles : Unit → List (List String × JVal)) :
    Except JovoCliError (List (List String × JVal)) := do
  alexaValidateLocales pluginId supported table locales
  Except.ok (buildFiles ())

/-- Embeds the persistable slice of `JovoUser`
(`framework/src/JovoUser.ts`): `createdAt`/`updatedAt` are opaque
timestamps, `userData` is the `$data` property, `isNew` the flag of the
same name, and `id` the request-derived abstract accessor (for
`AlexaUser`, the session user id). -/
structure JovoUserState where
  createdAt : Nat
  updatedAt : Nat
  userData : JVal
  isNew : Bool
  id : String
deriving Repr

/-- Embeds `PersistableUserData`: the record `{ data: this.$data }`. -/
structure PersistableUserData where
  data : JVal
deriving Repr

/-- Embeds `JovoUser.getPersistableData`. -/
def getPersistableData (u : JovoUserState) : PersistableUserData :=
  { data := u.userData }

/-- Embeds `JovoUser.setPersistableData`: assigns `this.$data = data.data`
and returns the user. -/
def setPersistableData (u : JovoUserState) (d : PersistableUserData) : JovoUserState :=
  { u with userData := d.data }

/-- Paths `p` that are not a strict prefix of any path in `qs` (used to
state the non-clobbering property of the project-file construction). -/
def notStrictPrefixOfAny (p : List String) (qs : List (List String)) : Prop :=
  ∀ q ∈ qs, p <+: q → p = q

theorem lookupKey_setEntry_self (k : String) (v : JVal) :
    ∀ xs, lookupKey k (setEntry xs k v) = some v := by
  intro xs
  induction xs with
  | nil => simp [setEntry, lookupKey]
  | cons hd tl ih =>
    obtain ⟨k2, w⟩ := hd
    by_cases h : k2 = k
    · simp [setEntry, lookupKey, h]
    · simp [setEntry, lookupKey, h, ih]

theorem lookupKey_setEntry_other (j k : String) (v : JVal) (hjk : j ≠ k) :
    ∀ xs, lookupKey j (setEntry xs k v) = lookupKey j xs := by
  intro xs
  induction xs with
  | nil => simp [setEntry, lookupKey, Ne.symm hjk]
  | cons hd tl ih =>
    obtain ⟨k2, w⟩ := hd
    by_cases h : k2 = k
    · subst h
      simp [setEntry, lookupKey, Ne.symm hjk]
    · simp [setEntry, lookupKey, h, ih]

theorem lookupKey_append (k : String) :
    ∀ xs ys, lookupKey k (xs ++ ys) =
      match lookupKey k xs with
      | some v => some v
      | none => lookupKey k ys := by
  intro xs ys
  induction xs with
  | nil => simp [lookupKey]
  | cons hd tl ih =>
    obtain ⟨k2, w⟩ := hd
    by_cases h : k2 = k
    · simp [lookupKey, h]
    · simp [lookupKey, h, ih]

theorem lookupKey_mergeMap (rec : JVal → JVal → JVal) (ys : List (String × JVal)) (k : String) :
    ∀ xs, lookupKey k (xs.map (fun p =>
        match lookupKey p.fst ys with
        | some vb => (p.fst, rec p.snd vb)
        | none => p)) =
      Option.map (fun v =>
          match lookupKey k ys with
          | some w => rec v w
          | none => v)
        (lookupKey k xs) := by
  intro xs
  induction xs with
  | nil => simp [lookupKey]
  | cons hd tl ih =>
    obtain ⟨k2, u⟩ := hd
    by_cases h : k2 = k
    · subst h
      cases hy : lookupKey k2 ys <;> simp [lookupKey, hy]
    · cases hy : lookupKey k2 ys <;> simp [lookupKey, hy, h, ih]

theorem lookupKey_filter_isNone (xs : List (String × JVal)) (k : String)
    (hx : lookupKey k xs = none) :
    ∀ ys, lookupKey k (ys.filter (fun q => (lookupKey q.fst xs).isNone)) =
      lookupKey k ys := by
  intro ys
  induction ys with
  | nil => simp
  | cons hd tl ih =>
    obtain ⟨k2, u⟩ := hd
    by_cases h : k2 = k
    · subst h
      simp [List.filter_cons, hx, lookupKey, ih]
    · by_cases hk2 : (lookupKey k2 xs).isNone
      · simp [List.filter_cons, hk2, lookupKey, h, ih]
      · simp [List.filter_cons, hk2, lookupKey, h, ih]

theorem lookupKey_mergeEntries_some (rec : JVal → JVal → JVal)
    (xs ys : List (String × JVal)) (k : String) (v : JVal)
    (hx : lookupKey k xs = some v) :
    lookupKey k (mergeEntries rec xs ys) =
      some (match lookupKey k ys with
        | some w => rec v w
        | none => v) := by
  unfold mergeEntries
  rw [lookupKey_append, lookupKey_mergeMap, hx]
  cases lookupKey k ys <;> rfl

theorem lookupKey_mergeEntries_none (rec : JVal → JVal → JVal)
    (xs ys : List (String × JVal)) (k : String)
    (hx : lookupKey k xs = none) :
    lookupKey k (mergeEntries rec xs ys) = lookupKey k ys := by
  unfold mergeEntries
  rw [lookupKey_append, lookupKey_mergeMap, hx]
  simp [lookupKey_filter_isNone xs k hx ys]

theorem jmergeF_scalar_right (f : Nat) (d v : JVal) (hv : isScalar v = true) :
    jmergeF f d v = v := by
  cases f with
  | zero => rfl
  | succ g => cases v <;> simp [isScalar] at hv <;> cases d <;> rfl

theorem jget_append (s : List String) :
    ∀ p t, jget t (p ++ s) =
      match jget t p with
      | some u => jget u s
      | none => none := by
  intro p
  induction p with
  | nil => intro t; simp [jget]
  | cons k rest ih =>
    intro t
    cases t <;> simp [jget]
    case obj xs =>
      cases hlk : lookupKey k xs
      · rfl
      · simp [ih]

theorem jget_some_of_prefix_some (t : JVal) (p r : List String) (v : JVal)
    (hpr : p <+: r) (hr : jget t r = some v) : ∃ u, jget t p = some u := by
  obtain ⟨s, rfl⟩ := hpr
  rw [jget_append] at hr
  cases hp : jget t p with
  | none => rw [hp] at hr; exact absurd hr (by simp)
  | some u => exact ⟨u, rfl⟩

theorem jget_merge_source_scalar :
    ∀ (p : List String) (fuel : Nat) (d u v : JVal),
      p.length < fuel → isScalar v = true → jget u p = some v →
      jget (jmergeF fuel d u) p = some v := by
  intro p
  induction p with
  | nil =>
    intro fuel d u v hf hv hu
    simp [jget] at hu
    subst hu
    obtain ⟨g, rfl⟩ : ∃ g, fuel = g + 1 := ⟨fuel - 1, by omega⟩
    rw [jmergeF_scalar_right (g + 1) d u hv]
    simp [jget]
  | cons k rest ih =>
    intro fuel d u v hf hv hu
    cases u <;> simp [jget] at hu
    case obj us =>
    obtain ⟨g, rfl⟩ : ∃ g, fuel = g + 1 := ⟨fuel - 1, by omega⟩
    cases hlk : lookupKey k us with
    | none => rw [hlk] at hu; exact absurd hu (by simp)
    | some u2 =>
      rw [hlk] at hu
      have hrest : jget u2 rest = some v := hu
      have hlen : rest.length < g := by simp at hf; omega
      cases d
      case obj ds =>
        cases hdk : lookupKey k ds with
        | some dv =>
          have hm := lookupKey_mergeEntries_some (jmergeF g) ds us k dv hdk
          rw [hlk] at hm
          simp [jmergeF, jget, hm]
          exact ih g dv u2 v hlen hv hrest
        | none =>
          have hm := lookupKey_mergeEntries_none (jmergeF g) ds us k hdk
          rw [hlk] at hm
          simp [jmergeF, jget, hm]
          exact hrest
      all_goals simp [jmergeF, jget, hlk]; exact hrest


theorem jget_jsetFresh_of_diverge :
    ∀ (q p : List String) (w : JVal),
      ¬ p <+: q → ¬ q <+: p → jget (jset (JVal.obj []) q w) p = none := by
  intro q
  induction q with
  | nil =>
    intro p w h1 h2
    exact absurd List.nil_prefix h2
  | cons m q3 ih =>
    intro p w h1 h2
    cases p with
    | nil => exact absurd List.nil_prefix h1
    | cons n p3 =>
      show jget (JVal.obj ([] ++ [(m, jset (JVal.obj []) q3 w)])) (n :: p3) = none
      by_cases hnm : m = n
      · subst hnm
        have h1b : ¬ p3 <+: q3 := fun h => h1 (by simpa [List.cons_prefix_cons] using h)
        have h2b : ¬ q3 <+: p3 := fun h => h2 (by simpa [List.cons_prefix_cons] using h)
        simp only [jget, List.nil_append, lookupKey, if_pos rfl]
        exact ih p3 w h1b h2b
      · simp [jget, lookupKey, hnm]

theorem jget_jset_of_diverge :
    ∀ (q p : List String) (t w : JVal),
      ¬ p <+: q → ¬ q <+: p → jget (jset t q w) p = jget t p := by
  intro q
  induction q with
  | nil =>
    intro p t w h1 h2
    exact absurd List.nil_prefix h2
  | cons k q2 ih =>
    intro p t w h1 h2
    cases p with
    | nil => exact absurd List.nil_prefix h1
    | cons j p2 =>
      by_cases hjk : j = k
      · subst hjk
        have h1b : ¬ p2 <+: q2 := fun h => h1 (by simpa [List.cons_prefix_cons] using h)
        have h2b : ¬ q2 <+: p2 := fun h => h2 (by simpa [List.cons_prefix_cons] using h)
        obtain ⟨m, q3, rfl⟩ : ∃ m q3, q2 = m :: q3 := by
          cases q2 with
          | nil => exact absurd List.nil_prefix h2b
          | cons m q3 => exact ⟨m, q3, rfl⟩
        obtain ⟨n, p3, rfl⟩ : ∃ n p3, p2 = n :: p3 := by
          cases p2 with
          | nil => exact absurd List.nil_prefix h1b
          | cons n p3 => exact ⟨n, p3, rfl⟩
        cases t with
        | obj xs =>
          cases hlk : lookupKey j xs with
          | some u =>
            cases u with
            | obj ys =>
              simp only [jset, hlk, jget, lookupKey_setEntry_self]
              exact ih (n :: p3) (JVal.obj ys) w h1b h2b
            | str s =>
              simp only [jset, hlk, jget, lookupKey_setEntry_self]
              exact jget_jsetFresh_of_diverge (m :: q3) (n :: p3) w h1b h2b
            | num x =>
              simp only [jset, hlk, jget, lookupKey_setEntry_self]
              exact jget_jsetFresh_of_diverge (m :: q3) (n :: p3) w h1b h2b
            | bool x =>
              simp only [jset, hlk, jget, lookupKey_setEntry_self]
              exact jget_jsetFresh_of_diverge (m :: q3) (n :: p3) w h1b h2b
            | null =>
              simp only [jset, hlk, jget, lookupKey_setEntry_self]
              exact jget_jsetFresh_of_diverge (m :: q3) (n :: p3) w h1b h2b
            | arr xs2 =>
              simp only [jset, hlk, jget, lookupKey_setEntry_self]
              exact jget_jsetFresh_of_diverge (m :: q3) (n :: p3) w h1b h2b
          | none =>
            simp only [jset, hlk, jget]
            rw [lookupKey_append]
            simp only [hlk, lookupKey, if_pos rfl]
            exact jget_jsetFresh_of_diverge (m :: q3) (n :: p3) w h1b h2b
        | str s => rfl
        | num x => rfl
        | bool x => rfl
        | null => rfl
        | arr xs2 => rfl
      · cases t with
        | obj xs =>
          have hset : ∀ X, jget (JVal.obj (setEntry xs k X)) (j :: p2) =
              jget (JVal.obj xs) (j :: p2) := by
            intro X
            simp only [jget, lookupKey_setEntry_other j k X hjk]
          cases hlk : lookupKey k xs with
          | some u =>
            cases u with
            | obj ys => simp only [jset, hlk]; exact hset _
            | str s =>
              cases q2 with
              | nil => simp only [jset, hlk]; exact hset _
              | cons m q3 => simp only [jset, hlk]; exact hset _
            | num x =>
              cases q2 with
              | nil => simp only [jset, hlk]; exact hset _
              | cons m q3 => simp only [jset, hlk]; exact hset _
            | bool x =>
              cases q2 with
              | nil => simp only [jset, hlk]; exact hset _
              | cons m q3 => simp only [jset, hlk]; exact hset _
            | null =>
              cases q2 with
              | nil => simp only [jset, hlk]; exact hset _
              | cons m q3 => simp only [jset, hlk]; exact hset _
            | arr xs2 =>
              cases q2 with
              | nil => simp only [jset, hlk]; exact hset _
              | cons m q3 => simp only [jset, hlk]; exact hset _
          | none =>
            simp only [jset, hlk, jget]
            rw [lookupKey_append]
            cases hlj : lookupKey j xs with
            | some v => simp [hlj]
            | none => simp [hlj, lookupKey, Ne.symm hjk]
        | str s => rfl
        | num x => rfl
        | bool x => rfl
        | null => rfl
        | arr xs2 => rfl

theorem jget_guardedSet_preserve (t : JVal) (q : List String) (w : JVal)
    (p : List String) (v : JVal) (hp : jget t p = some v)
    (hstrict : p <+: q → p = q) : jget (guardedSet t q w) p = some v := by
  unfold guardedSet
  by_cases hq : jhas t q = true
  · rw [if_pos hq]; exact hp
  · rw [if_neg hq]
    have hqn : jget t q = none := by
      unfold jhas at hq
      cases hj : jget t q
      · rfl
      · rw [hj] at hq; simp at hq
    by_cases hpq : p <+: q
    · have hpeq : p = q := hstrict hpq
      subst hpeq
      rw [hp] at hqn
      exact absurd hqn (by simp)
    · by_cases hqp : q <+: p
      · obtain ⟨u, hu⟩ := jget_some_of_prefix_some t q p v hqp hp
        rw [hu] at hqn
        exact absurd hqn (by simp)
      · rw [jget_jset_of_diverge q p t w hpq hqp]
        exact hp

theorem jget_alexaFold_preserve :
    ∀ (ls : List String) (sn : String) (t : JVal) (p : List String) (v : JVal),
      jget t p = some v →
      (∀ l ∈ ls, (p <+: alexaPublishingPath l → p = alexaPublishingPath l) ∧
        (p <+: alexaPrivacyPath l → p = alexaPrivacyPath l)) →
      jget (ls.foldl (alexaLocaleWrites sn) t) p = some v := by
  intro ls
  induction ls with
  | nil => intro sn t p v hp _; simpa using hp
  | cons l ls2 ih =>
    intro sn t p v hp hcond
    rw [List.foldl_cons]
    refine ih sn (alexaLocaleWrites sn t l) p v ?_ (fun x hx => hcond x (by simp [hx]))
    unfold alexaLocaleWrites
    have h1 := (hcond l (by simp)).1
    have h2 := (hcond l (by simp)).2
    exact jget_guardedSet_preserve _ _ _ p v
      (jget_guardedSet_preserve t _ _ p v hp h1) h2

theorem jget_googleResolvedWrites_preserve
    (P : GoogleProjectParams) (ml : String) (t : JVal) (p : List String) (v : JVal)
    (r : String) (hp : jget t p = some v)
    (h1 : p <+: googleSettingsPath P.defaultLocale r ++ ["defaultLocale"] →
      p = googleSettingsPath P.defaultLocale r ++ ["defaultLocale"])
    (h2 : p <+: googleSettingsPath P.defaultLocale r ++ ["projectId"] →
      p = googleSettingsPath P.defaultLocale r ++ ["projectId"])
    (h3 : p <+: googleSettingsPath P.defaultLocale r ++ ["localizedSettings", "displayName"] →
      p = googleSettingsPath P.defaultLocale r ++ ["localizedSettings", "displayName"])
    (h4 : p <+: googleSettingsPath P.defaultLocale r ++ ["localizedSettings", "pronunciation"] →
      p = googleSettingsPath P.defaultLocale r ++ ["localizedSettings", "pronunciation"]) :
    jget (googleResolvedWrites P ml t r) p = some v := by
  unfold googleResolvedWrites
  by_cases hdef : r = P.defaultLocale
  · simp only [hdef, if_pos rfl]
    refine jget_guardedSet_preserve _ _ _ p v ?_ (by simpa [hdef] using h4)
    refine jget_guardedSet_preserve _ _ _ p v ?_ (by simpa [hdef] using h3)
    refine jget_guardedSet_preserve _ _ _ p v ?_ (by simpa [hdef] using h2)
    exact jget_guardedSet_preserve _ _ _ p v hp (by simpa [hdef] using h1)
  · simp only [if_neg hdef]
    refine jget_guardedSet_preserve _ _ _ p v ?_ h4
    exact jget_guardedSet_preserve _ _ _ p v hp h3

theorem jget_googleResolvedFold_preserve :
    ∀ (rs : List String) (P : GoogleProjectParams) (ml : String) (t : JVal)
      (p : List String) (v : JVal),
      jget t p = some v →
      (∀ r ∈ rs,
        (p <+: googleSettingsPath P.defaultLocale r ++ ["defaultLocale"] →
          p = googleSettingsPath P.defaultLocale r ++ ["defaultLocale"]) ∧
        (p <+: googleSettingsPath P.defaultLocale r ++ ["projectId"] →
          p = googleSettingsPath P.defaultLocale r ++ ["projectId"]) ∧
        (p <+: googleSettingsPath P.defaultLocale r ++ ["localizedSettings", "displayName"] →
          p = googleSettingsPath P.defaultLocale r ++ ["localizedSettings", "displayName"]) ∧
        (p <+: googleSettingsPath P.defaultLocale r ++ ["localizedSettings", "pronunciation"] →
          p = googleSettingsPath P.defaultLocale r ++ ["localizedSettings", "pronunciation"])) →
      jget (rs.foldl (googleResolvedWrites P ml) t) p = some v := by
  intro rs
  induction rs with
  | nil => intro P ml t p v hp _; simpa using hp
  | cons r rs2 ih =>
    intro P ml t p v hp hcond
    rw [List.foldl_cons]
    refine ih P ml _ p v ?_ (fun x hx => hcond x (by simp [hx]))
    obtain ⟨h1, h2, h3, h4⟩ := hcond r (by simp)
    exact jget_googleResolvedWrites_preserve P ml t p v r hp h1 h2 h3 h4

theorem jget_googleLocalesFold_preserve :
    ∀ (ls : List String) (P : GoogleProjectParams) (t : JVal)
      (p : List String) (v : JVal),
      jget t p = some v →
      (∀ l ∈ ls, ∀ r ∈ getResolvedLocales P.localeTable l,
        (p <+: googleSettingsPath P.defaultLocale r ++ ["defaultLocale"] →
          p = googleSettingsPath P.defaultLocale r ++ ["defaultLocale"]) ∧
        (p <+: googleSettingsPath P.defaultLocale r ++ ["projectId"] →
          p = googleSettingsPath P.defaultLocale r ++ ["projectId"]) ∧
        (p <+: googleSettingsPath P.defaultLocale r ++ ["localizedSettings", "displayName"] →
          p = googleSettingsPath P.defaultLocale r ++ ["localizedSettings", "displayName"]) ∧
        (p <+: googleSettingsPath P.defaultLocale r ++ ["localizedSettings", "pronunciation"] →
          p = googleSettingsPath P.defaultLocale r ++ ["localizedSettings", "pronunciation"])) →
      jget (ls.foldl
        (fun t2 l => (getResolvedLocales P.localeTable l).foldl (googleResolvedWrites P l) t2)
        t) p = some v := by
  intro ls
  induction ls with
  | nil => intro P t p v hp _; simpa using hp
  | cons l ls2 ih =>
    intro P t p v hp hcond
    rw [List.foldl_cons]
    refine ih P _ p v ?_ (fun x hx => hcond x (by simp [hx]))
    exact jget_googleResolvedFold_preserve (getResolvedLocales P.localeTable l) P l t p v hp
      (hcond l (by simp))

theorem createAlexaProjectFiles_preserve (fuel : Nat) (P : AlexaProjectParams)
    (p : List String) (v : JVal) (hv : isScalar v = true)
    (hp : jget P.files p = some v) (hlen : p.length < fuel)
    (hgen : notStrictPrefixOfAny p (alexaGeneratedPaths P)) :
    jget (createAlexaProjectFiles fuel P) p = some v := by
  have hbase : jget (if P.hasPlatform then P.files
      else jmergeF fuel P.defaultFiles P.files) p = some v := by
    by_cases hhp : P.hasPlatform = true
    · simpa [hhp] using hp
    · rw [if_neg hhp]
      exact jget_merge_source_scalar p fuel P.defaultFiles P.files v hlen hv hp
  have h1 : jget (if P.endpoint = ""
      then (if P.hasPlatform then P.files else jmergeF fuel P.defaultFiles P.files)
      else guardedSet (if P.hasPlatform then P.files else jmergeF fuel P.defaultFiles P.files)
        alexaEndpointPath (alexaEndpointValue P.endpoint)) p = some v := by
    by_cases he : P.endpoint = ""
    · simpa [he] using hbase
    · rw [if_neg he]
      exact jget_guardedSet_preserve _ _ _ p v hbase
        (hgen alexaEndpointPath (by simp [alexaGeneratedPaths]))
  have h2 : jget (match P.skillId with
      | some sid => guardedSet (if P.endpoint = ""
          then (if P.hasPlatform then P.files else jmergeF fuel P.defaultFiles P.files)
          else guardedSet (if P.hasPlatform then P.files else jmergeF fuel P.defaultFiles P.files)
            alexaEndpointPath (alexaEndpointValue P.endpoint))
          alexaSkillIdPath (JVal.str sid)
      | none => (if P.endpoint = ""
          then (if P.hasPlatform then P.files else jmergeF fuel P.defaultFiles P.files)
          else guardedSet (if P.hasPlatform then P.files else jmergeF fuel P.defaultFiles P.files)
            alexaEndpointPath (alexaEndpointValue P.endpoint))) p = some v := by
    cases P.skillId with
    | none => exact h1
    | some sid =>
      exact jget_guardedSet_preserve _ _ _ p v h1
        (hgen alexaSkillIdPath (by simp [alexaGeneratedPaths]))
  show jget ((P.contextLocales.flatMap (getResolvedLocales P.localeTable)).foldl
    (alexaLocaleWrites P.skillName) _) p = some v
  refine jget_alexaFold_preserve _ P.skillName _ p v h2 ?_
  intro l hl
  constructor
  · refine hgen (alexaPublishingPath l) ?_
    simp only [alexaGeneratedPaths, List.mem_cons, List.mem_flatMap]
    right; right
    exact ⟨l, by simpa [List.mem_flatMap] using hl, by simp⟩
  · refine hgen (alexaPrivacyPath l) ?_
    simp only [alexaGeneratedPaths, List.mem_cons, List.mem_flatMap]
    right; right
    exact ⟨l, by simpa [List.mem_flatMap] using hl, by simp⟩

theorem createGoogleProjectFiles_preserve (fuel : Nat) (P : GoogleProjectParams)
    (p : List String) (v : JVal) (hv : isScalar v = true)
    (hp : jget P.files p = some v) (hlen : p.length < fuel)
    (hgen : notStrictPrefixOfAny p (googleGeneratedPaths P)) :
    jget (createGoogleProjectFiles fuel P) p = some v := by
  have hbase : jget (if P.hasPlatform then P.files
      else jmergeF fuel P.defaultFiles P.files) p = some v := by
    by_cases hhp : P.hasPlatform = true
    · simpa [hhp] using hp
    · rw [if_neg hhp]
      exact jget_merge_source_scalar p fuel P.defaultFiles P.files v hlen hv hp
  have h1 : jget (if P.endpoint = ""
      then (if P.hasPlatform then P.files else jmergeF fuel P.defaultFiles P.files)
      else guardedSet (if P.hasPlatform then P.files else jmergeF fuel P.defaultFiles P.files)
        googleWebhookPath (googleDefaultHandler P.endpoint)) p = some v := by
    by_cases he : P.endpoint = ""
    · simpa [he] using hbase
    · rw [if_neg he]
      exact jget_guardedSet_preserve _ _ _ p v hbase
        (hgen googleWebhookPath (by simp [googleGeneratedPaths]))
  show jget (P.contextLocales.foldl
    (fun t2 l => (getResolvedLocales P.localeTable l).foldl (googleResolvedWrites P l) t2)
    _) p = some v
  refine jget_googleLocalesFold_preserve P.contextLocales P _ p v h1 ?_
  intro l hl r hr
  have hmem : ∀ (tail : List String),
      googleSettingsPath P.defaultLocale r ++ tail ∈ googleGeneratedPaths P →
      p <+: googleSettingsPath P.defaultLocale r ++ tail →
      p = googleSettingsPath P.defaultLocale r ++ tail :=
    fun tail hm => hgen _ hm
  refine ⟨hmem _ ?_, hmem _ ?_, hmem _ ?_, hmem _ ?_⟩ <;>
  · simp only [googleGeneratedPaths, List.mem_cons, List.mem_flatMap]
    right
    exact ⟨l, hl, r, hr, by simp⟩


theorem alexaValidateResolved_find (pid : String) (sup : List String) :
    ∀ rs, alexaValidateResolved pid sup rs =
      match rs.find? (fun x => !sup.contains x) with
      | some r => Except.error (alexaUnsupportedLocaleError pid r)
      | none => Except.ok () := by
  intro rs
  induction rs with
  | nil => rfl
  | cons r rs2 ih =>
    have hstep : alexaValidateResolved pid sup (r :: rs2) =
        if sup.contains r = true then alexaValidateResolved pid sup rs2
        else Except.error (alexaUnsupportedLocaleError pid r) := rfl
    cases h : sup.contains r with
    | true =>
      rw [hstep, if_pos h, List.find?_cons_of_neg _ (by simpa using h), ih]
    | false =>
      rw [hstep, if_neg (by simpa using h), List.find?_cons_of_pos _ (by simpa using h)]

theorem alexaValidateLocales_find (pid : String) (sup : List String)
    (table : String → Option (List String)) :
    ∀ ls, alexaValidateLocales pid sup table ls =
      match (ls.flatMap (getResolvedLocales table)).find? (fun x => !sup.contains x) with
      | some r => Except.error (alexaUnsupportedLocaleError pid r)
      | none => Except.ok () := by
  intro ls
  induction ls with
  | nil => rfl
  | cons l ls2 ih =>
    rw [List.flatMap_cons, List.find?_append]
    show (do
      alexaValidateResolved pid sup (getResolvedLocales table l)
      alexaValidateLocales pid sup table ls2 : Except JovoCliError Unit) = _
    rw [alexaValidateResolved_find]
    cases hf : (getResolvedLocales table l).find? (fun x => !sup.contains x) with
    | some r => rfl
    | none =>
      show alexaValidateLocales pid sup table ls2 = _
      rw [ih]
      rfl

theorem googleValidateLocalesAux_find (sup all : List String) :
    ∀ rest, (∀ l ∈ rest, ¬(sup.contains (genericOf l) = true ∧
        all.contains (genericOf l) = false)) →
      googleValidateLocalesAux sup all rest =
        match rest.find? (fun x => !sup.contains x) with
        | some r => Except.error (googleUnsupportedLocaleError r)
        | none => Except.ok () := by
  intro rest
  induction rest with
  | nil => intro _; rfl
  | cons l rest2 ih =>
    intro hng
    have hgl : (sup.contains (genericOf l) && !(all.contains (genericOf l))) = false := by
      have hne := hng l (by simp)
      cases hs : sup.contains (genericOf l) <;> cases ha : all.contains (genericOf l) <;>
        simp_all
    have hcheck : googleCheckLocale sup all l =
        if (!(sup.contains l)) = true then Except.error (googleUnsupportedLocaleError l)
        else Except.ok () := by
      unfold googleCheckLocale
      rw [if_neg]
      rw [hgl]
      simp
    have hstep : googleValidateLocalesAux sup all (l :: rest2) = (do
        googleCheckLocale sup all l
        googleValidateLocalesAux sup all rest2 : Except JovoCliError Unit) := rfl
    cases h : sup.contains l with
    | true =>
      rw [hstep, hcheck, if_neg (by simpa using h), List.find?_cons_of_neg _ (by simpa using h)]
      show googleValidateLocalesAux sup all rest2 = _
      exact ih (fun x hx => hng x (by simp [hx]))
    | false =>
      rw [hstep, hcheck, if_pos (by simpa using h), List.find?_cons_of_pos _ (by simpa using h)]
      rfl

theorem googleValidateLocalesAux_ok_iff (sup all : List String) :
    ∀ rest, googleValidateLocalesAux sup all rest = Except.ok () ↔
      ∀ l ∈ rest, googleCheckLocale sup all l = Except.ok () := by
  intro rest
  induction rest with
  | nil => simp [googleValidateLocalesAux]
  | cons l rest2 ih =>
    have hstep : googleValidateLocalesAux sup all (l :: rest2) = (do
        googleCheckLocale sup all l
        googleValidateLocalesAux sup all rest2 : Except JovoCliError Unit) := rfl
    rw [hstep]
    cases hc : googleCheckLocale sup all l with
    | error e =>
      constructor
      · intro h
        exact absurd h (by simp [Bind.bind, Except.bind])
      · intro h
        have hl := h l (by simp)
        rw [hc] at hl
        exact absurd hl (by simp)
    | ok u =>
      obtain rfl : u = () := rfl
      show googleValidateLocalesAux sup all rest2 = Except.ok () ↔ _
      rw [ih]
      constructor
      · intro h x hx
        rcases List.mem_cons.mp hx with hx1 | hx2
        · subst hx1; exact hc
        · exact h x hx2
      · intro h x hx
        exact h x (by simp [hx])

theorem mapMaybe_jovoIntentFromNative :
    ∀ is : List JovoIntent,
      mapMaybe jovoIntentFromNative (is.map alexaIntentToNative) =
        some (is.map (fun i => JVal.obj
          [("name", JVal.str i.name), ("phrases", JVal.arr (i.phrases.map JVal.str))])) := by
  intro is
  induction is with
  | nil => rfl
  | cons i is2 ih =>
    simp only [List.map_cons, mapMaybe, ih]
    rfl

theorem jmergeF_emptyModel (f : Nat) (inv : String) (X : JVal) :
    jmergeF f emptyJovoModel (JVal.obj [("invocation", JVal.str inv), ("intents", X)]) =
      JVal.obj [("invocation", JVal.str inv), ("intents", X)] := by
  cases f with
  | zero => rfl
  | succ g =>
    show JVal.obj (mergeEntries (jmergeF g) [("invocation", JVal.str "")]
      [("invocation", JVal.str inv), ("intents", X)]) = _
    unfold mergeEntries
    simp [lookupKey, List.filter_cons, jmergeF_scalar_right g (JVal.str "") (JVal.str inv) rfl]

theorem intentNames_parsed :
    ∀ is : List JovoIntent,
      List.filterMap (fun i =>
        match jget i ["name"] with
        | some (JVal.str n) => some n
        | _ => none)
      (is.map (fun i => JVal.obj
        [("name", JVal.str i.name), ("phrases", JVal.arr (i.phrases.map JVal.str))])) =
      is.map JovoIntent.name := by
  intro is
  induction is with
  | nil => rfl
  | cons i is2 ih =>
    simp only [List.map_cons, List.filterMap_cons]
    simp [jget, lookupKey, ih]

/-- C1: for every canonical model and every locale, the forward build
(`buildLanguageModel` over the modelled Alexa converter) followed by the
reverse build of the written native file (the `buildReverse` body, with
no pre-existing canonical model) succeeds and preserves every intent
name and the invocation string unchanged. -/
theorem claim1_forward_reverse_roundtrip (fuel : Nat) (m : JovoModelCore) (l : String) :
    ∃ r, alexaRoundTrip fuel m l = Except.ok r ∧
      jget r ["invocation"] = some (JVal.str m.invocation) ∧
      intentNamesOf r = m.intents.map JovoIntent.name := by
  refine ⟨JVal.obj [("invocation", JVal.str m.invocation),
    ("intents", JVal.arr (m.intents.map (fun i => JVal.obj
      [("name", JVal.str i.name), ("phrases", JVal.arr (i.phrases.map JVal.str))])))],
    ?_, ?_, ?_⟩
  · have h2 : alexaImportToJovo (JVal.obj [("interactionModel", JVal.obj
        [("languageModel", JVal.obj
          [ ("invocationName", JVal.str m.invocation)
          , ("intents", JVal.arr (m.intents.map alexaIntentToNative)) ])])]) =
        some (JVal.obj [("invocation", JVal.str m.invocation),
          ("intents", JVal.arr (m.intents.map (fun i => JVal.obj
            [("name", JVal.str i.name),
             ("phrases", JVal.arr (i.phrases.map JVal.str))])))]) := by
      simp [alexaImportToJovo, jget, lookupKey, mapMaybe_jovoIntentFromNative]
    show alexaBuildReverseLocale fuel none (alexaImportToJovo (JVal.obj
      [("interactionModel", JVal.obj [("languageModel", JVal.obj
        [ ("invocationName", JVal.str m.invocation)
        , ("intents", JVal.arr (m.intents.map alexaIntentToNative)) ])])])) = _
    rw [h2]
    show Except.ok (jmergeF fuel emptyJovoModel _) = _
    rw [jmergeF_emptyModel]
  · simp [jget, lookupKey]
  · unfold intentNamesOf
    rw [show jget (JVal.obj [("invocation", JVal.str m.invocation),
      ("intents", JVal.arr (m.intents.map (fun i => JVal.obj
        [("name", JVal.str i.name), ("phrases", JVal.arr (i.phrases.map JVal.str))])))])
      ["intents"] =
      some (JVal.arr (m.intents.map (fun i => JVal.obj
        [("name", JVal.str i.name), ("phrases", JVal.arr (i.phrases.map JVal.str))]))) from by
        simp [jget, lookupKey]]
    exact intentNames_parsed m.intents

/-- C2: the Google hook's `getDefaultLocale` with no configured default
returns the first resolved locale containing the substring "en", the
first locale in order when none contains "en", and in particular
resolving the request `en` through the table mapping `en` to
`[en-US, en-GB]` selects `en-US`. -/
theorem claim2_default_locale_selection :
    (∀ (ls : List String) (l : String), ls.find? containsEn = some l →
      getDefaultLocale none (some ls) = Except.ok (some l)) ∧
    (∀ ls : List String, ls ≠ [] → ls.find? containsEn = none →
      getDefaultLocale none (some ls) = Except.ok ls.head?) ∧
    getDefaultLocale none (some (getResolvedLocales
      (fun t => if t = "en" then some (["en-US", "en-GB"]) else none) "en")) =
      Except.ok (some ("en-US")) := by
  refine ⟨?_, ?_, by rfl⟩
  · intro ls l h
    show (match ls.find? containsEn with
      | some x => Except.ok (some x)
      | none => Except.ok ls.head?) = _
    rw [h]
  · intro ls _ h
    show (match ls.find? containsEn with
      | some x => Except.ok (some x)
      | none => Except.ok ls.head?) = _
    rw [h]

theorem claim2_witness :
    ((["de-DE", "en-US", "en-GB"].find? containsEn = some ("en-US")) ∧
      getDefaultLocale none (some ["de-DE", "en-US", "en-GB"]) =
        Except.ok (some ("en-US"))) ∧
    ((["de-DE", "fr-FR"] : List String) ≠ [] ∧
      ["de-DE", "fr-FR"].find? containsEn = none ∧
      getDefaultLocale none (some ["de-DE", "fr-FR"]) =
        Except.ok (["de-DE", "fr-FR"] : List String).head?) :=
  ⟨⟨by decide, claim2_default_locale_selection.1 ["de-DE", "en-US", "en-GB"] "en-US" (by decide)⟩,
   ⟨by decide, by decide,
    claim2_default_locale_selection.2.1 ["de-DE", "fr-FR"] (by decide) (by decide)⟩⟩

/-- C10: `setPersistableData` followed by `getPersistableData` yields a
record whose data field is the one that was set, and `setPersistableData`
changes no field of the user other than `$data`. -/
theorem claim10_persistable_data :
    ∀ (u : JovoUserState) (d : PersistableUserData),
      getPersistableData (setPersistableData u d) = { data := d.data } ∧
      (setPersistableData u d).createdAt = u.createdAt ∧
      (setPersistableData u d).updatedAt = u.updatedAt ∧
      (setPersistableData u d).isNew = u.isNew ∧
      (setPersistableData u d).id = u.id :=
  fun _ _ => ⟨rfl, rfl, rfl, rfl, rfl⟩

/-- C3 counterexample: on the Google platform, requesting `en-US` alone
against a supported list that also declares the generic `en` raises the
generic-locale-required error naming `en-US` — a locale that **is** in
the supported list — so validation does not always name the first
unsupported resolved locale. -/
theorem claim3_counterexample :
    googleValidateLocales ["en", "en-US", "en-GB"] (fun _ => none) ["en-US"] =
      Except.error (googleGenericLocaleError "en-US" "en") ∧
    (["en", "en-US", "en-GB"] : List String).contains "en-US" = true ∧
    googleGenericLocaleError "en-US" "en" ≠ googleUnsupportedLocaleError "en-US" := by
  refine ⟨by rfl, by decide, by decide⟩

/-- C3 (amended): the Alexa `validateLocales` errors on the first
resolved locale missing from the supported list, naming it, with the
documentation pointer for concrete locales and the generic-locale
guidance for 2-letter locales, and succeeds when all resolved locales
are supported; the Google `validateLocales` does the same (with its
documentation pointer) provided no resolved locale triggers the
two-stage generic-locale check first; a validation error stops the
Alexa build pipeline before any file is produced. -/
theorem claim3_validation_first_offender :
    (∀ pid sup table ls r,
      (ls.flatMap (getResolvedLocales table)).find? (fun x => !sup.contains x) = some r →
      alexaValidateLocales pid sup table ls =
        Except.error (alexaUnsupportedLocaleError pid r) ∧
      (alexaUnsupportedLocaleError pid r).message =
        "Locale " ++ r ++ " is not supported by Amazon Alexa." ∧
      (r.length = 2 → (alexaUnsupportedLocaleError pid r).hint = alexaGenericHint) ∧
      (r.length ≠ 2 → (alexaUnsupportedLocaleError pid r).hint = alexaDocHint)) ∧
    (∀ pid sup table ls,
      (ls.flatMap (getResolvedLocales table)).find? (fun x => !sup.contains x) = none →
      alexaValidateLocales pid sup table ls = Except.ok ()) ∧
    (∀ sup table ls r,
      (∀ l ∈ ls.flatMap (getResolvedLocales table),
        ¬(sup.contains (genericOf l) = true ∧
          (ls.flatMap (getResolvedLocales table)).contains (genericOf l) = false)) →
      (ls.flatMap (getResolvedLocales table)).find? (fun x => !sup.contains x) = some r →
      googleValidateLocales sup table ls =
        Except.error (googleUnsupportedLocaleError r) ∧
      (googleUnsupportedLocaleError r).message =
        "Locale " ++ r ++ " is not supported by Google Conversational Actions.") ∧
    (∀ pid sup table ls bf e,
      alexaValidateLocales pid sup table ls = Except.error e →
      alexaBuildPipeline pid sup table ls bf = Except.error e) := by
  refine ⟨?_, ?_, ?_, ?_⟩
  · intro pid sup table ls r h
    refine ⟨?_, rfl, ?_, ?_⟩
    · rw [alexaValidateLocales_find, h]
    · intro h2
      simp [alexaUnsupportedLocaleError, h2]
    · intro h2
      simp [alexaUnsupportedLocaleError, h2]
  · intro pid sup table ls h
    rw [alexaValidateLocales_find, h]
  · intro sup table ls r hng h
    refine ⟨?_, rfl⟩
    show googleValidateLocalesAux sup (ls.flatMap (getResolvedLocales table))
      (ls.flatMap (getResolvedLocales table)) = _
    rw [googleValidateLocalesAux_find _ _ _ hng, h]
  · intro pid sup table ls bf e h
    show (do
      alexaValidateLocales pid sup table ls
      Except.ok (bf ()) : Except JovoCliError (List (List String × JVal))) = _
    rw [h]
    rfl

theorem claim3_witness :
    ((["de-DE"].flatMap (getResolvedLocales (fun _ => none))).find?
      (fun x => !(["en-US", "en-GB"] : List String).contains x) = some ("de-DE")) ∧
    alexaValidateLocales "testAlexaCli" ["en-US", "en-GB"] (fun _ => none) ["de-DE"] =
      Except.error (alexaUnsupportedLocaleError "testAlexaCli" "de-DE") ∧
    (alexaUnsupportedLocaleError "testAlexaCli" "de-DE").hint = alexaDocHint ∧
    googleValidateLocales ["en-US", "en-GB"] (fun _ => none) ["de-DE"] =
      Except.error (googleUnsupportedLocaleError "de-DE") ∧
    alexaBuildPipeline "testAlexaCli" ["en-US", "en-GB"] (fun _ => none) ["de-DE"]
      (fun _ => []) =
      Except.error (alexaUnsupportedLocaleError "testAlexaCli" "de-DE") := by
  have h1 := claim3_validation_first_offender.1 "testAlexaCli" ["en-US", "en-GB"]
    (fun _ => none) ["de-DE"] "de-DE" (by decide)
  have h3 := claim3_validation_first_offender.2.2.1 ["en-US", "en-GB"]
    (fun _ => none) ["de-DE"] "de-DE" (by decide) (by decide)
  have h4 := claim3_validation_first_offender.2.2.2 "testAlexaCli" ["en-US", "en-GB"]
    (fun _ => none) ["de-DE"] (fun _ => []) _ h1.1
  exact ⟨by decide, h1.1, h1.2.2.2 (by decide), h3.1, h4⟩

/-- C4: on the Google platform, a resolved locale whose 2-letter prefix
is declared in the supported-locale list while the prefix itself is
missing from the resolved locales fails validation with an error naming
the locale and the required generic locale; otherwise a locale passes
its per-locale check exactly when it is in the supported list, and
`validateLocales` succeeds exactly when every resolved locale passes. -/
theorem claim4_google_two_stage_validation :
    (∀ sup table ls,
      googleValidateLocales sup table ls = Except.ok () ↔
      ∀ l ∈ ls.flatMap (getResolvedLocales table),
        googleCheckLocale sup (ls.flatMap (getResolvedLocales table)) l = Except.ok ()) ∧
    (∀ sup all l, sup.contains (genericOf l) = true → all.contains (genericOf l) = false →
      googleCheckLocale sup all l =
        Except.error (googleGenericLocaleError l (genericOf l)) ∧
      (googleGenericLocaleError l (genericOf l)).message =
        "Locale " ++ l ++ " requires a generic locale " ++ genericOf l ++ ".") ∧
    (∀ sup all l,
      ¬(sup.contains (genericOf l) = true ∧ all.contains (genericOf l) = false) →
      (googleCheckLocale sup all l = Except.ok () ↔ sup.contains l = true)) := by
  refine ⟨?_, ?_, ?_⟩
  · intro sup table ls
    show googleValidateLocalesAux sup (ls.flatMap (getResolvedLocales table))
      (ls.flatMap (getResolvedLocales table)) = Except.ok () ↔ _
    exact googleValidateLocalesAux_ok_iff sup _ _
  · intro sup all l h1 h2
    refine ⟨?_, rfl⟩
    unfold googleCheckLocale
    rw [if_pos (show (sup.contains (genericOf l) && !(all.contains (genericOf l))) = true by
      rw [h1, h2]; rfl)]
  · intro sup all l hng
    have hgl : (sup.contains (genericOf l) && !(all.contains (genericOf l))) = false := by
      cases hs : sup.contains (genericOf l) <;> cases ha : all.contains (genericOf l) <;>
        simp_all
    unfold googleCheckLocale
    rw [if_neg]
    · cases h : sup.contains l with
      | true =>
        rw [if_neg (by simp [h])]
        simp
      | false =>
        rw [if_pos (by simp [h])]
        simp
    · rw [hgl]
      simp

theorem claim4_witness :
    googleCheckLocale ["en", "en-US"] ["en-US"] "en-US" =
      Except.error (googleGenericLocaleError "en-US" "en") ∧
    (googleCheckLocale ["en", "en-US"] ["en", "en-US"] "en-US" = Except.ok ()) ∧
    googleValidateLocales ["en", "en-US"] (fun _ => none) ["en", "en-US"] =
      Except.ok () := by
  refine ⟨(claim4_google_two_stage_validation.2.1 ["en", "en-US"] ["en-US"] "en-US"
    (by decide) (by decide)).1, ?_, ?_⟩
  · exact (claim4_google_two_stage_validation.2.2 ["en", "en-US"] ["en", "en-US"] "en-US"
      (by decide)).mpr (by decide)
  · exact (claim4_google_two_stage_validation.1 ["en", "en-US"] (fun _ => none)
      ["en", "en-US"]).mpr (by decide)

/-- C5: the model merge applies project-level and then plugin-level
language-model overrides with the array-customized deep merge (modelled
from the spec, since `mergeArrayCustomizer` lives outside src/): when
both sides of a key hold arrays, the result at that key is their
concatenation with exact duplicates removed in first-seen order, and in
particular `getJovoModel` on `{a:[1,2]}` with project override
`{a:[2,3]}` and empty plugin override yields `{a:[1,2,3]}`. -/
theorem claim5_model_merge_array_customizer :
    (∀ (f : Nat) (xs ys : List (String × JVal)) (k : String) (as bs : List JVal),
      lookupKey k xs = some (JVal.arr as) → lookupKey k ys = some (JVal.arr bs) →
      jget (jmergeWithF (f + 2) (JVal.obj xs) (JVal.obj ys)) [k] =
        some (JVal.arr (dedupF f (as ++ bs)))) ∧
    getJovoModel 3 (JVal.obj [("a", JVal.arr [JVal.num 1, JVal.num 2])])
      (JVal.obj [("a", JVal.arr [JVal.num 2, JVal.num 3])]) (JVal.obj []) =
      JVal.obj [("a", JVal.arr [JVal.num 1, JVal.num 2, JVal.num 3])] := by
  constructor
  · intro f xs ys k as bs hx hy
    show jget (JVal.obj (mergeEntries (jmergeWithF (f + 1)) xs ys)) [k] = _
    have hm := lookupKey_mergeEntries_some (jmergeWithF (f + 1)) xs ys k (JVal.arr as) hx
    rw [hy] at hm
    show (match lookupKey k (mergeEntries (jmergeWithF (f + 1)) xs ys) with
      | some v => jget v []
      | none => none) = _
    rw [hm]
    rfl
  · rfl

theorem claim5_witness :
    lookupKey "a" [("a", JVal.arr [JVal.num 1, JVal.num 2])] =
      some (JVal.arr [JVal.num 1, JVal.num 2]) ∧
    lookupKey "a" [("a", JVal.arr [JVal.num 2, JVal.num 3])] =
      some (JVal.arr [JVal.num 2, JVal.num 3]) ∧
    jget (jmergeWithF 3 (JVal.obj [("a", JVal.arr [JVal.num 1, JVal.num 2])])
        (JVal.obj [("a", JVal.arr [JVal.num 2, JVal.num 3])])) ["a"] =
      some (JVal.arr (dedupF 1 ([JVal.num 1, JVal.num 2] ++ [JVal.num 2, JVal.num 3]))) :=
  ⟨rfl, rfl,
    claim5_model_merge_array_customizer.1 1
      [("a", JVal.arr [JVal.num 1, JVal.num 2])]
      [("a", JVal.arr [JVal.num 2, JVal.num 3])]
      "a" [JVal.num 1, JVal.num 2] [JVal.num 2, JVal.num 3] rfl rfl⟩

/-- C7 counterexample: in the file-tree merge of `createAlexaProjectFiles`
(`_merge(DefaultFiles, files)` — plain lodash merge), a default array
`[1,2]` and a user array `[2,3]` at the same key merge index-wise to
`[2,3]`, not to the concatenation-with-dedup `[1,2,3]` the claim
states. -/
theorem claim7_counterexample :
    jget (createAlexaProjectFiles 3
      { hasPlatform := false
      , defaultFiles := JVal.obj [("a", JVal.arr [JVal.num 1, JVal.num 2])]
      , files := JVal.obj [("a", JVal.arr [JVal.num 2, JVal.num 3])]
      , endpoint := ""
      , skillId := none
      , skillName := ""
      , localeTable := fun _ => none
      , contextLocales := [] }) ["a"] =
      some (JVal.arr [JVal.num 2, JVal.num 3]) ∧
    JVal.arr [JVal.num 2, JVal.num 3] ≠ JVal.arr [JVal.num 1, JVal.num 2, JVal.num 3] := by
  refine ⟨by rfl, by simp⟩

/-- C7 (amended): in the file-tree merge of platform defaults with user
overrides, two arrays at the same key merge index-wise — the user's
element overwrites the default's at each index and the longer array's
tail is kept — rather than concatenating with duplicate removal; with
no platform folder, no endpoint, no skill id and no locales,
`createAlexaProjectFiles` is exactly this merge of the default tree
with the user tree. -/
theorem claim7_filetree_array_merge :
    (∀ (f : Nat) (xs ys : List (String × JVal)) (k : String) (as bs : List JVal),
      lookupKey k xs = some (JVal.arr as) → lookupKey k ys = some (JVal.arr bs) →
      jget (jmergeF (f + 2) (JVal.obj xs) (JVal.obj ys)) [k] =
        some (JVal.arr (List.zipWith (jmergeF f) as bs ++
          List.drop bs.length as ++ List.drop as.length bs))) ∧
    (∀ (fuel : Nat) (d u : JVal),
      createAlexaProjectFiles fuel
        { hasPlatform := false, defaultFiles := d, files := u, endpoint := ""
        , skillId := none, skillName := "", localeTable := fun _ => none
        , contextLocales := [] } = jmergeF fuel d u) := by
  constructor
  · intro f xs ys k as bs hx hy
    show jget (JVal.obj (mergeEntries (jmergeF (f + 1)) xs ys)) [k] = _
    have hm := lookupKey_mergeEntries_some (jmergeF (f + 1)) xs ys k (JVal.arr as) hx
    rw [hy] at hm
    show (match lookupKey k (mergeEntries (jmergeF (f + 1)) xs ys) with
      | some v => jget v []
      | none => none) = _
    rw [hm]
    rfl
  · intro fuel d u
    rfl

theorem claim7_witness :
    lookupKey "a" [("a", JVal.arr [JVal.num 1, JVal.num 2])] =
      some (JVal.arr [JVal.num 1, JVal.num 2]) ∧
    jget (jmergeF 3 (JVal.obj [("a", JVal.arr [JVal.num 1, JVal.num 2])])
        (JVal.obj [("a", JVal.arr [JVal.num 2, JVal.num 3])])) ["a"] =
      some (JVal.arr (List.zipWith (jmergeF 1)
        [JVal.num 1, JVal.num 2] [JVal.num 2, JVal.num 3] ++
        List.drop 2 [JVal.num 1, JVal.num 2] ++ List.drop 2 [JVal.num 2, JVal.num 3])) :=
  ⟨rfl,
    claim7_filetree_array_merge.1 1
      [("a", JVal.arr [JVal.num 1, JVal.num 2])]
      [("a", JVal.arr [JVal.num 2, JVal.num 3])]
      "a" [JVal.num 1, JVal.num 2] [JVal.num 2, JVal.num 3] rfl rfl⟩

theorem alexaBuildLanguageModel_error_first :
    ∀ (conv : String → List NativeFileInformation) (rs : List String) (r : String),
      rs.find? (fun l => (conv l).isEmpty) = some r →
      alexaBuildLanguageModel conv rs = Except.error (alexaNoFilesError r) := by
  intro conv rs
  induction rs with
  | nil => intro r h; exact absurd h (by simp)
  | cons l rs2 ih =>
    intro r h
    cases hc : conv l with
    | nil =>
      rw [List.find?_cons_of_pos _ (by simp [hc])] at h
      obtain rfl : l = r := by injection h
      show (match conv l with
        | [] => Except.error (alexaNoFilesError l)
        | file :: _ => do
          let rest ← alexaBuildLanguageModel conv rs2
          Except.ok ((["models", l ++ ".json"], file.content) :: rest)) = _
      rw [hc]
    | cons f fs =>
      rw [List.find?_cons_of_neg _ (by simp [hc])] at h
      have hrec := ih r h
      show (match conv l with
        | [] => Except.error (alexaNoFilesError l)
        | file :: _ => do
          let rest ← alexaBuildLanguageModel conv rs2
          Except.ok ((["models", l ++ ".json"], file.content) :: rest)) = _
      rw [hc, hrec]
      rfl

theorem googleBuildLanguageModel_ok :
    ∀ (fuel : Nat) (conv : String → List NativeFileInformation)
      (pa : Option JVal) (rs : List String),
      ∃ ws, googleBuildLanguageModel fuel conv pa rs = Except.ok ws := by
  intro fuel conv pa rs
  induction rs with
  | nil => exact ⟨[], rfl⟩
  | cons l rs2 ih =>
    obtain ⟨ws, hws⟩ := ih
    refine ⟨googleBuildLocale fuel conv pa l ++ ws, ?_⟩
    show (do
      let rest ← googleBuildLanguageModel fuel conv pa rs2
      Except.ok (googleBuildLocale fuel conv pa l ++ rest) :
        Except JovoCliError (List (List String × JVal))) = _
    rw [hws]
    rfl

/-- C8 counterexample: the Google `buildLanguageModel` with a converter
that yields zero native files succeeds silently, writing only the
actions registry file — it does not fail with an error naming the
locale as the claim states for both platforms. -/
theorem claim8_counterexample :
    googleBuildLanguageModel 1 (fun _ => []) none ["en-US"] =
      Except.ok [(["actions", "actions.yaml"], googleInitialActions)] := by
  rfl

/-- C8 (amended): the Alexa `buildLanguageModel` fails with a descriptive
error naming the first resolved locale for which the converter yields
zero native files; the Google `buildLanguageModel` performs no zero-file
check — it always succeeds, and for a locale with zero converter files
it writes only the actions registry file. -/
theorem claim8_zero_file_conversion :
    (∀ (conv : String → List NativeFileInformation) (rs : List String) (r : String),
      rs.find? (fun l => (conv l).isEmpty) = some r →
      alexaBuildLanguageModel conv rs = Except.error (alexaNoFilesError r) ∧
      (alexaNoFilesError r).message =
        "Could not build Alexa files for locale \"" ++ r ++ "\"!") ∧
    (∀ (fuel : Nat) (conv : String → List NativeFileInformation)
      (pa : Option JVal) (rs : List String),
      ∃ ws, googleBuildLanguageModel fuel conv pa rs = Except.ok ws) ∧
    (∀ (fuel : Nat) (pa : Option JVal) (l : String),
      (googleBuildLocale fuel (fun _ => []) pa l).map Prod.fst =
        [["actions", "actions.yaml"]]) := by
  refine ⟨?_, googleBuildLanguageModel_ok, ?_⟩
  · intro conv rs r h
    exact ⟨alexaBuildLanguageModel_error_first conv rs r h, rfl⟩
  · intro fuel pa l
    cases pa <;> rfl

theorem claim8_witness :
    ((["en-US", "de-DE"].find?
      (fun l => ((fun x => if x = "de-DE" then ([] : List NativeFileInformation)
        else [{ path := ["x"], content := JVal.null }]) l).isEmpty)) = some ("de-DE")) ∧
    alexaBuildLanguageModel (fun x => if x = "de-DE" then []
      else [{ path := ["x"], content := JVal.null }]) ["en-US", "de-DE"] =
      Except.error (alexaNoFilesError "de-DE") ∧
    ∃ ws, googleBuildLanguageModel 1 (fun _ => []) none ["fr-FR"] = Except.ok ws := by
  refine ⟨by decide, ?_, claim8_zero_file_conversion.2.1 1 (fun _ => []) none ["fr-FR"]⟩
  exact (claim8_zero_file_conversion.1 (fun x => if x = "de-DE" then []
    else [{ path := ["x"], content := JVal.null }]) ["en-US", "de-DE"] "de-DE" (by decide)).1

/-- C9: the Alexa reverse build for a locale with no existing canonical
model merges the parsed data into the `{ invocation: '' }` placeholder
with plain deep merge (scalars in the parsed data win), the saved model
holds only the placeholder invocation key and keys of the parsed data,
and parsed content with no usable data fails with the descriptive
error. -/
theorem claim9_reverse_build :
    (∀ (fuel : Nat) (d : JVal), alexaBuildReverseLocale fuel none (some d) =
      Except.ok (jmergeF fuel emptyJovoModel d)) ∧
    (∀ (f : Nat) (ds : List (String × JVal)) (k : String) (v : JVal),
      isScalar v = true → lookupKey k ds = some v →
      ∃ r, alexaBuildReverseLocale (f + 1) none (some (JVal.obj ds)) = Except.ok r ∧
        jget r [k] = some v) ∧
    (∀ (f : Nat) (ds : List (String × JVal)),
      ∃ r, alexaBuildReverseLocale (f + 1) none (some (JVal.obj ds)) = Except.ok r ∧
        ∀ k ∈ topKeys r, k = "invocation" ∨ k ∈ topKeys (JVal.obj ds)) ∧
    (∀ (fuel : Nat) (existing : Option JVal),
      alexaBuildReverseLocale fuel existing none = Except.error alexaNoValidDataError) ∧
    alexaNoValidDataError.message = "Alexa files did not contain any valid data." := by
  refine ⟨fun _ _ => rfl, ?_, ?_, fun _ _ => rfl, rfl⟩
  · intro f ds k v hv hl
    refine ⟨jmergeF (f + 1) emptyJovoModel (JVal.obj ds), rfl, ?_⟩
    show (match lookupKey k (mergeEntries (jmergeF f) [("invocation", JVal.str "")] ds) with
      | some w => jget w []
      | none => none) = some v
    by_cases hk : k = "invocation"
    · subst hk
      have hm := lookupKey_mergeEntries_some (jmergeF f) [("invocation", JVal.str "")] ds
        "invocation" (JVal.str "") (by simp [lookupKey])
      rw [hl] at hm
      have hm2 : lookupKey "invocation"
          (mergeEntries (jmergeF f) [("invocation", JVal.str "")] ds) =
          some (jmergeF f (JVal.str "") v) := hm
      rw [hm2, jmergeF_scalar_right f (JVal.str "") v hv]
      simp [jget]
    · have hnone : lookupKey k [("invocation", JVal.str "")] = none := by
        simp [lookupKey, Ne.symm hk]
      rw [lookupKey_mergeEntries_none (jmergeF f) _ ds k hnone, hl]
      simp [jget]
  · intro f ds
    refine ⟨jmergeF (f + 1) emptyJovoModel (JVal.obj ds), rfl, ?_⟩
    intro k hk
    have hfst : ∀ pr : String × JVal,
        (match lookupKey pr.fst ds with
          | some vb => (pr.fst, jmergeF f pr.snd vb)
          | none => pr).fst = pr.fst := by
      intro pr
      cases hlk : lookupKey pr.fst ds <;> simp
    have hk2 : k ∈ (mergeEntries (jmergeF f) [("invocation", JVal.str "")] ds).map
        Prod.fst := hk
    unfold mergeEntries at hk2
    rw [List.map_append, List.mem_append] at hk2
    rcases hk2 with hk3 | hk3
    · left
      simp only [List.map_cons, List.map_nil, List.mem_singleton,
        Function.comp_apply] at hk3
      rw [hfst ("invocation", JVal.str "")] at hk3
      exact hk3
    · right
      obtain ⟨q, hqf, rfl⟩ := List.mem_map.mp hk3
      exact List.mem_map_of_mem _ (List.mem_of_mem_filter hqf)

theorem claim9_witness :
    isScalar (JVal.str "my app") = true ∧
    lookupKey "invocation"
      [("invocation", JVal.str "my app"), ("intents", JVal.arr [])] =
      some (JVal.str "my app") ∧
    ∃ r, alexaBuildReverseLocale 2 none
        (some (JVal.obj [("invocation", JVal.str "my app"), ("intents", JVal.arr [])])) =
      Except.ok r ∧ jget r ["invocation"] = some (JVal.str "my app") :=
  ⟨rfl, rfl,
    claim9_reverse_build.2.1 1 [("invocation", JVal.str "my app"), ("intents", JVal.arr [])]
      "invocation" (JVal.str "my app") rfl rfl⟩

/-- C6 counterexample: a user override holding an **object** is not left
exactly as the user wrote it — `_merge(DefaultFiles, files)` deep-merges
platform-default keys into it, so the resulting tree at the user-set
path `a` differs from the user's value. -/
theorem claim6_counterexample :
    jget (createAlexaProjectFiles 3
      { hasPlatform := false
      , defaultFiles := JVal.obj [("a", JVal.obj [("x", JVal.num 1)])]
      , files := JVal.obj [("a", JVal.obj [("y", JVal.num 2)])]
      , endpoint := ""
      , skillId := none
      , skillName := ""
      , localeTable := fun _ => none
      , contextLocales := [] }) ["a"] =
      some (JVal.obj [("x", JVal.num 1), ("y", JVal.num 2)]) ∧
    jget (JVal.obj [("a", JVal.obj [("y", JVal.num 2)])]) ["a"] =
      some (JVal.obj [("y", JVal.num 2)]) ∧
    JVal.obj [("x", JVal.num 1), ("y", JVal.num 2)] ≠ JVal.obj [("y", JVal.num 2)] := by
  refine ⟨by rfl, by rfl, by simp⟩

/-- C6 (amended): for every path the user's file overrides set to a
primitive (non-object, non-array) value, provided the path is not a
strict prefix of one of the platform's generated write paths, both
`createAlexaProjectFiles` and `createGoogleProjectFiles` leave exactly
the user's value at that path, regardless of the platform default or
generated value there — every generated write is guarded by an
existence check. -/
theorem claim6_nonclobbering :
    (∀ (fuel : Nat) (P : AlexaProjectParams) (p : List String) (v : JVal),
      isScalar v = true → jget P.files p = some v → p.length < fuel →
      notStrictPrefixOfAny p (alexaGeneratedPaths P) →
      jget (createAlexaProjectFiles fuel P) p = some v) ∧
    (∀ (fuel : Nat) (P : GoogleProjectParams) (p : List String) (v : JVal),
      isScalar v = true → jget P.files p = some v → p.length < fuel →
      notStrictPrefixOfAny p (googleGeneratedPaths P) →
      jget (createGoogleProjectFiles fuel P) p = some v) :=
  ⟨createAlexaProjectFiles_preserve, createGoogleProjectFiles_preserve⟩

theorem claim6_witness :
    jget (createAlexaProjectFiles 8
      { hasPlatform := false
      , defaultFiles := JVal.obj []
      , files := JVal.obj [("skill-package/", JVal.obj [("skill.json", JVal.obj
          [("manifest", JVal.obj [("apis", JVal.obj [("custom", JVal.obj
            [("endpoint", JVal.str "user-endpoint")])])])])])]
      , endpoint := "https://generated.example"
      , skillId := some "amzn1.ask.skill.x"
      , skillName := "name"
      , localeTable := fun _ => none
      , contextLocales := ["en-US"] }) alexaEndpointPath =
      some (JVal.str "user-endpoint") ∧
    jget (createGoogleProjectFiles 8
      { hasPlatform := true
      , defaultFiles := JVal.obj []
      , files := JVal.obj [("settings/", JVal.obj [("settings.yaml", JVal.obj
          [("localizedSettings", JVal.obj [("displayName", JVal.str "My Action")])])])]
      , endpoint := ""
      , projectId := "pid"
      , defaultLocale := "en"
      , invocationName := fun _ => "generated name"
      , localeTable := fun _ => none
      , contextLocales := ["en"] })
      ["settings/", "settings.yaml", "localizedSettings", "displayName"] =
      some (JVal.str "My Action") := by
  constructor
  · exact claim6_nonclobbering.1 8 _ alexaEndpointPath (JVal.str "user-endpoint")
      rfl rfl (by decide) (by unfold notStrictPrefixOfAny; decide)
  · exact claim6_nonclobbering.2 8 _
      ["settings/", "settings.yaml", "localizedSettings", "displayName"]
      (JVal.str "My Action") rfl rfl (by decide) (by unfold notStrictPrefixOfAny; decide)
